import Mathlib

/-!
Verification of the shifty on-call scheduling engine.

The scheduling logic lives in two source variants, `generate_schedule.py`
(web-app variant) and `pediweb.py` (stand-alone variant); their constraint
extraction, horizon building and model construction are line-for-line the
same, and the embedding below models the shared logic once, with the places
where the two variants differ (the infeasible-month carry handling and the
diagnostics) modelled separately per variant.

Dates are modelled as proleptic-Gregorian epoch-day integers with day 0 =
0001-01-01, so that `d + 1` is the next calendar day exactly as Python's
`date + timedelta(days=1)`, and `pyWeekday` matches `date.weekday()`
(0 = Monday, day 0 being a Monday as in Python).  Worker ids are naturals
(the code uses `ped_id = i + 1`).  Spreadsheet ingestion (column-name
heuristics, weekday-name expansion) is out of scope per the spec; the
embedding starts from the per-worker date sets the parsing produces.
-/

namespace Shifty

/-- Gregorian leap-year rule, as implemented by Python's `calendar`/`datetime`. -/
def isLeapYear (y : ℕ) : Bool := (y % 4 == 0 && y % 100 != 0) || (y % 400 == 0)

/-- Number of days of month `m` (1-12) of year `y`. -/
def monthLength (y m : ℕ) : ℕ :=
  if m = 2 then (if isLeapYear y then 29 else 28)
  else if m = 4 ∨ m = 6 ∨ m = 9 ∨ m = 11 then 30
  else 31

/-- Days strictly before year `y` counted from 0001-01-01. -/
def daysBeforeYear (y : ℕ) : ℕ :=
  365 * (y - 1) + ((y - 1) / 4 - (y - 1) / 100 + (y - 1) / 400)

/-- Days of year `y` strictly before month `m`. -/
def daysBeforeMonth (y m : ℕ) : ℕ :=
  ∑ i in Finset.range (m - 1), monthLength y (i + 1)

/-- Epoch day of the first day of month `m` of year `y`
(`datetime(year, month, 1).date()` in both variants). -/
def monthStart (y m : ℕ) : ℤ :=
  (daysBeforeYear y : ℤ) + (daysBeforeMonth y m : ℤ)

/-- The day list `[start_date + timedelta(days=i) for i in range(...)]`
built by `process_month`. -/
def monthDays (y m : ℕ) : List ℤ :=
  (List.range (monthLength y m)).map (fun i : ℕ => monthStart y m + (i : ℤ))

/-- Epoch day of the calendar date `(y, m, d)`. -/
def toEpochDay (y m d : ℕ) : ℤ := monthStart y m + ((d : ℤ) - 1)

/-- Python's `date.weekday()`: 0 = Monday, ..., 6 = Sunday. -/
def pyWeekday (d : ℤ) : ℤ := d % 7

/-- One worker's spreadsheet rows, already resolved to epoch-day sets by the
ingestion layer (the reason column partitions into Vacation/Skip/Congress,
the preference column into Prefer Not/Prefer; rows 0 and 1 of the number and
weekend columns give the min/max limits; the Type and MIR cells give the
category and supervision flag). -/
structure PedSheet where
  vacation : Finset ℤ
  skip : Finset ℤ
  congress : Finset ℤ
  preferNot : Finset ℤ
  preferred : Finset ℤ
  shiftMin : ℚ
  shiftMax : ℚ
  weekendMin : ℚ
  weekendMax : ℚ
  tipus : String
  mir : Bool

/-- Result of `process_month`: the per-worker constraint sets for one month. -/
structure MonthData where
  days : List ℤ
  startDate : ℤ
  endDate : ℤ
  mandatoryShifts : ℕ → List ℤ
  cannotDoDays : ℕ → Finset ℤ
  preferNotDays : ℕ → Finset ℤ
  preferredDays : ℕ → Finset ℤ
  shiftLimits : ℕ → ℚ × ℚ
  weekendLimits : ℕ → ℚ × ℚ
  tipusStatus : ℕ → String
  mirStatus : ℕ → Bool
  noPreviousDayShifts : ℕ → Finset ℤ

/-- The `cannot_work` set built inside `process_month`: each vacation day
blocks itself and the adjacent days, each skip day blocks only itself, each
congress day blocks itself and the adjacent days. -/
def cannotWork (sh : PedSheet) : Finset ℤ :=
  (sh.vacation.biUnion (fun day => {day - 1, day, day + 1})) ∪ sh.skip ∪
    (sh.congress.biUnion (fun day => {day - 1, day, day + 1}))

/-- `process_month(year, month, ...)` of both variants: builds the month's day
list and the per-worker constraint sets.  `rawMandatory p` is the list of dates
of the MandatoryShifts sheet for worker `p` (it is filtered to the month's
days); the final filter is the conflict-resolution step that drops mandatory
entries coinciding with an explicit skip day.  `no_previous_day_config` is
empty in the source, so `noPreviousDayShifts` is empty. -/
def processMonth (year month : ℕ) (rawMandatory : ℕ → List ℤ)
    (sheets : ℕ → PedSheet) : MonthData :=
  let days := monthDays year month
  { days := days
    startDate := monthStart year month
    endDate := monthStart year month + (monthLength year month : ℤ) - 1
    mandatoryShifts := fun p =>
      ((rawMandatory p).filter (fun d => decide (d ∈ days))).filter
        (fun d => decide (d ∉ (sheets p).skip))
    cannotDoDays := fun p => cannotWork (sheets p)
    preferNotDays := fun p => (sheets p).preferNot
    preferredDays := fun p => (sheets p).preferred
    shiftLimits := fun p => ((sheets p).shiftMin, (sheets p).shiftMax)
    weekendLimits := fun p => ((sheets p).weekendMin, (sheets p).weekendMax)
    tipusStatus := fun p => (sheets p).tipus
    mirStatus := fun p => (sheets p).mir
    noPreviousDayShifts := fun _ => ∅ }

/-- Result of `combine_month_with_overlap`: the combined current-month plus
overlap-window horizon, per both source variants. -/
structure CombinedData where
  monthDays : List ℤ
  overlapDays : List ℤ
  daysAll : List ℤ
  startDate : ℤ
  endDate : ℤ
  mandatoryAll : ℕ → Finset ℤ
  cannotAll : ℕ → Finset ℤ
  preferNotAll : ℕ → Finset ℤ
  preferredAll : ℕ → Finset ℤ
  shiftLimitsCur : ℕ → ℚ × ℚ
  weekendLimitsCur : ℕ → ℚ × ℚ
  shiftLimitsNext : Option (ℕ → ℚ × ℚ)
  weekendLimitsNext : Option (ℕ → ℚ × ℚ)
  tipusStatus : ℕ → String
  mirStatus : ℕ → Bool
  noPreviousDayShifts : ℕ → Finset ℤ

/-- `combine_month_with_overlap(year, month, M_overlap, ...)`: processes the
current month; if `month < 12 and M_overlap > 0` also processes the next month
and takes its first `M_overlap` days as the overlap window; then unions into
each per-worker set the next month's entries that fall inside the overlap
window (the source guards the union with `if overlap_days and nxt`). -/
def combineMonthWithOverlap (year month M : ℕ) (rawMandatory : ℕ → List ℤ)
    (sheets : ℕ → PedSheet) : CombinedData :=
  let cur := processMonth year month rawMandatory sheets
  let nxtOpt : Option MonthData :=
    if month < 12 ∧ 0 < M then some (processMonth year (month + 1) rawMandatory sheets)
    else none
  let overlapDays : List ℤ :=
    match nxtOpt with
    | some nxt => nxt.days.take M
    | none => []
  { monthDays := cur.days
    overlapDays := overlapDays
    daysAll := cur.days ++ overlapDays
    startDate := cur.startDate
    endDate := cur.endDate
    mandatoryAll := fun p =>
      match nxtOpt with
      | some nxt =>
          if overlapDays = [] then (cur.mandatoryShifts p).toFinset
          else (cur.mandatoryShifts p).toFinset ∪
            ((nxt.mandatoryShifts p).filter (fun d => decide (d ∈ overlapDays))).toFinset
      | none => (cur.mandatoryShifts p).toFinset
    cannotAll := fun p =>
      match nxtOpt with
      | some nxt =>
          if overlapDays = [] then cur.cannotDoDays p
          else cur.cannotDoDays p ∪ (nxt.cannotDoDays p).filter (fun d => d ∈ overlapDays)
      | none => cur.cannotDoDays p
    preferNotAll := fun p =>
      match nxtOpt with
      | some nxt =>
          if overlapDays = [] then cur.preferNotDays p
          else cur.preferNotDays p ∪ (nxt.preferNotDays p).filter (fun d => d ∈ overlapDays)
      | none => cur.preferNotDays p
    preferredAll := fun p =>
      match nxtOpt with
      | some nxt =>
          if overlapDays = [] then cur.preferredDays p
          else cur.preferredDays p ∪ (nxt.preferredDays p).filter (fun d => d ∈ overlapDays)
      | none => cur.preferredDays p
    shiftLimitsCur := cur.shiftLimits
    weekendLimitsCur := cur.weekendLimits
    shiftLimitsNext := nxtOpt.map (fun nxt => nxt.shiftLimits)
    weekendLimitsNext := nxtOpt.map (fun nxt => nxt.weekendLimits)
    tipusStatus := cur.tipusStatus
    mirStatus := cur.mirStatus
    noPreviousDayShifts := cur.noPreviousDayShifts }

/-- A sheet with no date entries, wide-open limits. -/
def emptySheet : PedSheet :=
  { vacation := ∅, skip := ∅, congress := ∅, preferNot := ∅, preferred := ∅
    shiftMin := 0, shiftMax := 5, weekendMin := 0, weekendMax := 5
    tipus := "Adjunt", mir := true }

/-- Sheet of a worker on vacation on 2026-07-10. -/
def vacationSheet : PedSheet :=
  { emptySheet with vacation := {toEpochDay 2026 7 10} }

/-- Sheet of a worker with an explicit skip on 2026-07-10. -/
def skipSheet : PedSheet :=
  { emptySheet with skip := {toEpochDay 2026 7 10} }

/-- A non-empty overlap carry left by a solved July 2026 (one decided
overlap day, 2026-08-01, for worker 1). -/
def julyCarry : ℕ → Finset ℤ :=
  fun p => if p = 1 then {toEpochDay 2026 8 1} else ∅

/-- The separation-constraint index set of the model: the pairs
`(d, d + k)` with `d` in the horizon, `k = 1 .. M` and `d + k` in the horizon,
exactly the pairs for which `x[p,d] + x[p,d+k] <= 1` is posted. -/
def separationPairs (daysAll : List ℤ) (M : ℕ) : List (ℤ × ℤ) :=
  daysAll.flatMap (fun d =>
    (List.range M).filterMap (fun k =>
      if (d + ((k : ℤ) + 1)) ∈ daysAll then some (d, d + ((k : ℤ) + 1)) else none))

/-- The end-of-month update of `prev_overlap_mandatory` in `pediweb.py`:
on an unsolved month the carry resets to empty; on a solved month it becomes
the set of overlap-window days assigned to the worker. -/
def nextPrevOverlapPediweb (result : Option (CombinedData × (ℕ → ℤ → Bool)))
    (prev : ℕ → Finset ℤ) : ℕ → Finset ℤ :=
  match result with
  | none => fun _ => (∅ : Finset ℤ)
  | some (data, xv) => fun p =>
      if data.overlapDays = [] then (∅ : Finset ℤ)
      else ((data.overlapDays.filter (fun d => xv p d)).toFinset)

/-- The end-of-month update of `prev_overlap_mandatory` in
`generate_schedule.py`: the `else` branch of `if last_x:` only prints a
failure message, so on an unsolved month the carry keeps its previous value;
on a solved month it becomes the set of overlap-window days assigned. -/
def nextPrevOverlapGenerate (result : Option (CombinedData × (ℕ → ℤ → Bool)))
    (prev : ℕ → Finset ℤ) : ℕ → Finset ℤ :=
  match result with
  | none => prev
  | some (data, xv) => fun p =>
      if data.overlapDays = [] then (∅ : Finset ℤ)
      else ((data.overlapDays.filter (fun d => xv p d)).toFinset)

/-- The numeric configuration of the model: staffing band, separation
candidates, penalty weights, fairness options.  `pediweb.py` hard-codes the
values, `generate_schedule.py` reads them from `GlobalConfig` with the same
defaults; both feed them into an identical model. -/
structure ScheduleConfig where
  S1 : ℚ
  S2 : ℚ
  mStart : ℤ
  mMin : ℤ
  balanceAlpha : ℚ
  useLexicographicFairness : Bool
  penaltyPreferNotDay : ℚ
  penaltyMissPreferredDay : ℚ
  penaltyExcessWeeklyShifts : ℚ
  penaltyRepeatedWeekday : ℚ
  penaltyRepeatedPairing : ℚ
  penaltyMonthlyBalance : ℚ
  penaltyShiftLimitViolation : ℚ
  penaltyWeekendLimitViolation : ℚ

/-- One candidate point of the optimization model: the binary decision
variables `x[p,d]` and every auxiliary variable of the model (binary
week/preference/pairing indicators, non-negative fairness deviations, and the
soft-phase slack variables). -/
structure ModelVars where
  x : ℕ → ℤ → Bool
  weekViolations : ℕ → ℕ → Bool
  missedPreferred : ℕ → ℤ → Bool
  pairViolations : ℕ → ℕ → Bool
  workingTogether : ℕ → ℕ → ℤ → Bool
  balDevPos : ℕ → ℚ
  balDevNeg : ℕ → ℚ
  underMin : ℕ → ℚ
  overMax : ℕ → ℚ
  underMinWknd : ℕ → ℚ
  overMaxWknd : ℕ → ℚ

/-- Numeric value of a binary variable. -/
def bval (b : Bool) : ℚ := if b then 1 else 0

/-- `lpSum(x[p, d] for d in month_days)`. -/
def monthTotal (data : CombinedData) (v : ModelVars) (p : ℕ) : ℚ :=
  (data.monthDays.map (fun d => bval (v.x p d))).sum

/-- `[d for d in month_days if d.weekday() >= 5]`. -/
def weekendDaysCur (data : CombinedData) : List ℤ :=
  data.monthDays.filter (fun d => decide (5 ≤ pyWeekday d))

/-- `num_weeks = (len(month_days) + 6) // 7`. -/
def numWeeks (data : CombinedData) : ℕ := (data.monthDays.length + 6) / 7

/-- `week_days = month_days[week*7 : min(week*7+7, len(month_days))]`. -/
def weekDays (data : CombinedData) (w : ℕ) : List ℤ :=
  (data.monthDays.drop (7 * w)).take 7

/-- Mandatory count in the current month including carried-over overlap
mandatories (`mandatory_cur` of the month loop). -/
def mandatoryCur (data : CombinedData) (prevOverlap : ℕ → Finset ℤ) (p : ℕ) : ℕ :=
  (((data.mandatoryAll p).filter (fun d => d ∈ data.monthDays)) ∪
    ((prevOverlap p).filter (fun d => d ∈ data.monthDays))).card

/-- The rolling-balance desired free-shift target `desired_free[p]`. -/
def desiredFree (cfg : ScheduleConfig) (data : CombinedData)
    (prevOverlap : ℕ → Finset ℤ)
    (cumulativeActualFree cumulativeTargetFree : ℕ → ℚ) (p : ℕ) : ℚ :=
  let mn := (data.shiftLimitsCur p).1
  let mx := (data.shiftLimitsCur p).2
  let mand : ℚ := (mandatoryCur data prevOverlap p : ℚ)
  let midpointTotal := (1 / 2 : ℚ) * (mn + mx)
  let minFree := max 0 (mn - mand)
  let maxFree := max 0 (mx - mand)
  let midpointFree := max 0 (midpointTotal - mand)
  let imbalanceFree := cumulativeTargetFree p - cumulativeActualFree p
  let dFree := midpointFree + cfg.balanceAlpha * imbalanceFree
  max minFree (min maxFree dFree)

/-- The full constraint set of one `(M, phase)` model, in the order the two
sources post the constraints (both sources post the identical list).  A point
`v` satisfies `Feasible ... v` exactly when it satisfies every hard constraint
and every auxiliary-variable inequality of that model; an assignment accepted
by the driver is the `x`-part of such a point.  The soft-phase slack variables
exist only in the soft phase, hence their bounds and relaxed limits are
conditional on `softPhase`. -/
def Feasible (cfg : ScheduleConfig) (data : CombinedData)
    (prevOverlap : ℕ → Finset ℤ) (peds : List ℕ) (M : ℕ) (softPhase : Bool)
    (desired : ℕ → ℚ) (mandCur : ℕ → ℚ) (v : ModelVars) : Prop :=
  -- MissedPreferred_p_d (posted while collecting the missed-preferred penalty)
  (∀ p ∈ peds, ∀ d ∈ data.daysAll, d ∈ data.preferredAll p →
    bval (v.missedPreferred p d) ≥ 1 - bval (v.x p d)) ∧
  -- ExcessWeeklyShifts_p_w
  (∀ p ∈ peds, ∀ w ∈ List.range (numWeeks data), weekDays data w ≠ [] →
    bval (v.weekViolations p w) ≥
      (((weekDays data w).map (fun d => bval (v.x p d))).sum - 2) /
        ((weekDays data w).length : ℚ)) ∧
  -- PairingMin / PairingMax1 / PairingMax2 and PairViolation_p1_p2
  (∀ p1 ∈ peds, ∀ p2 ∈ peds, p1 < p2 →
    (∀ d ∈ data.daysAll,
      bval (v.workingTogether p1 p2 d) ≥ bval (v.x p1 d) + bval (v.x p2 d) - 1 ∧
      bval (v.workingTogether p1 p2 d) ≤ bval (v.x p1 d) ∧
      bval (v.workingTogether p1 p2 d) ≤ bval (v.x p2 d)) ∧
    bval (v.pairViolations p1 p2) ≥
      ((data.daysAll.map (fun d => bval (v.workingTogether p1 p2 d))).sum - 1) /
        (data.daysAll.length : ℚ)) ∧
  -- BalDevPosFree_p / BalDevNegFree_p plus the lowBound=0 of both deviations
  (∀ p ∈ peds,
    0 ≤ v.balDevPos p ∧ 0 ≤ v.balDevNeg p ∧
    v.balDevPos p ≥ (monthTotal data v p - mandCur p) - desired p ∧
    v.balDevNeg p ≥ desired p - (monthTotal data v p - mandCur p)) ∧
  -- lowBound=0 of the soft-phase slack variables
  (softPhase = true → ∀ p ∈ peds,
    0 ≤ v.underMin p ∧ 0 ≤ v.overMax p ∧ 0 ≤ v.underMinWknd p ∧ 0 ≤ v.overMaxWknd p) ∧
  -- MandatoryShift_p_d (current + overlap merged set)
  (∀ p ∈ peds, ∀ d ∈ data.mandatoryAll p, v.x p d = true) ∧
  -- PrevOverlapMandatory_p_d (previous carry restricted to the current month)
  (∀ p ∈ peds, ∀ d ∈ prevOverlap p, d ∈ data.monthDays → v.x p d = true) ∧
  -- Unavailability_p_d
  (∀ p ∈ peds, ∀ d ∈ data.daysAll, d ∈ data.cannotAll p → v.x p d = false) ∧
  -- NoPreviousDay_p_d
  (∀ p ∈ peds, ∀ d ∈ data.noPreviousDayShifts p,
    d - 1 ∈ data.monthDays → v.x p (d - 1) = false) ∧
  -- Weekend limits: hard in phase A, slack-relaxed in phase B
  (softPhase = false → ∀ p ∈ peds,
    ((weekendDaysCur data).map (fun d => bval (v.x p d))).sum ≥ (data.weekendLimitsCur p).1 ∧
    ((weekendDaysCur data).map (fun d => bval (v.x p d))).sum ≤ (data.weekendLimitsCur p).2) ∧
  (softPhase = true → ∀ p ∈ peds,
    ((weekendDaysCur data).map (fun d => bval (v.x p d))).sum + v.underMinWknd p ≥
      (data.weekendLimitsCur p).1 ∧
    ((weekendDaysCur data).map (fun d => bval (v.x p d))).sum - v.overMaxWknd p ≤
      (data.weekendLimitsCur p).2) ∧
  -- Shift limits: hard in phase A, slack-relaxed in phase B
  (softPhase = false → ∀ p ∈ peds,
    monthTotal data v p ≥ (data.shiftLimitsCur p).1 ∧
    monthTotal data v p ≤ (data.shiftLimitsCur p).2) ∧
  (softPhase = true → ∀ p ∈ peds,
    monthTotal data v p + v.underMin p ≥ (data.shiftLimitsCur p).1 ∧
    monthTotal data v p - v.overMax p ≤ (data.shiftLimitsCur p).2) ∧
  -- OverlapMaxShifts_p / OverlapMaxWeekend_p (posted when the overlap window
  -- is non-empty and the next month's limits exist)
  (data.overlapDays ≠ [] → data.shiftLimitsNext.isSome = true →
    data.weekendLimitsNext.isSome = true → ∀ p ∈ peds,
    (data.overlapDays.map (fun d => bval (v.x p d))).sum ≤
      (((data.shiftLimitsNext.getD (fun _ => (0, 0))) p).2) ∧
    ((data.overlapDays.filter (fun d => decide (5 ≤ pyWeekday d))) ≠ [] →
      ((data.overlapDays.filter (fun d => decide (5 ≤ pyWeekday d))).map
          (fun d => bval (v.x p d))).sum ≤
        (((data.weekendLimitsNext.getD (fun _ => (0, 0))) p).2))) ∧
  -- ShiftSeparation_p_d_k, k = 1 .. M
  (∀ p ∈ peds, ∀ d ∈ data.daysAll, ∀ k ∈ List.range M,
    (d + ((k : ℤ) + 1)) ∈ data.daysAll →
    bval (v.x p d) + bval (v.x p (d + ((k : ℤ) + 1))) ≤ 1) ∧
  -- MinStaffing_d / MaxStaffing_d
  (∀ d ∈ data.daysAll,
    cfg.S1 ≤ (peds.map (fun p => bval (v.x p d))).sum ∧
    (peds.map (fun p => bval (v.x p d))).sum ≤ cfg.S2) ∧
  -- NoResidentWithNonMIR_r_s_d and NoResidentPairing_d
  (∀ d ∈ data.daysAll,
    (∀ r ∈ peds.filter (fun p => decide (data.tipusStatus p = "Resident")),
      ∀ nm ∈ peds.filter (fun p => !data.mirStatus p),
        bval (v.x r d) + bval (v.x nm d) ≤ 1) ∧
    ((peds.filter (fun p => decide (data.tipusStatus p = "Resident"))).map
        (fun p => bval (v.x p d))).sum ≤ 1)

set_option synthInstance.maxSize 4096 in
set_option synthInstance.maxHeartbeats 1000000 in
instance decidableFeasible (cfg : ScheduleConfig) (data : CombinedData)
    (prevOverlap : ℕ → Finset ℤ) (peds : List ℕ) (M : ℕ) (softPhase : Bool)
    (desired : ℕ → ℚ) (mandCur : ℕ → ℚ) (v : ModelVars) :
    Decidable (Feasible cfg data prevOverlap peds M softPhase desired mandCur v) := by
  unfold Feasible
  exact inferInstance

/-- `base_expr`, the primary penalty objective: the sum of the
`penalty_terms_base` list in the order the sources append its terms
(prefer-not and missed-preferred, weekly excess, repeated weekday, repeated
pairing, and in the soft phase the slack penalties). -/
def basePenaltyExpr (cfg : ScheduleConfig) (data : CombinedData) (peds : List ℕ)
    (softPhase : Bool) (v : ModelVars) : ℚ :=
  (peds.map (fun p => (data.daysAll.map (fun d =>
    (if d ∈ data.preferNotAll p then cfg.penaltyPreferNotDay * bval (v.x p d) else 0) +
    (if d ∈ data.preferredAll p then
      cfg.penaltyMissPreferredDay * bval (v.missedPreferred p d) else 0))).sum)).sum +
  (peds.map (fun p => ((List.range (numWeeks data)).map (fun w =>
    if weekDays data w ≠ [] then
      cfg.penaltyExcessWeeklyShifts * bval (v.weekViolations p w) else 0)).sum)).sum +
  (peds.map (fun p => ((List.range 7).map (fun dow =>
    if 2 ≤ (data.monthDays.filter (fun d => decide (pyWeekday d = (dow : ℤ)))).length then
      ((List.range
          ((data.monthDays.filter (fun d => decide (pyWeekday d = (dow : ℤ)))).length - 1)).map
        (fun i =>
          cfg.penaltyRepeatedWeekday *
            ((((data.monthDays.filter (fun d => decide (pyWeekday d = (dow : ℤ)))).take
                (i + 2)).map (fun d => bval (v.x p d))).sum - 1))).sum
    else 0)).sum)).sum +
  (peds.map (fun p1 => (peds.map (fun p2 =>
    if p1 < p2 then cfg.penaltyRepeatedPairing * bval (v.pairViolations p1 p2) else 0)).sum)).sum +
  (if softPhase then
    (peds.map (fun p =>
      cfg.penaltyShiftLimitViolation * (v.underMin p + v.overMax p) +
      cfg.penaltyWeekendLimitViolation * (v.underMinWknd p + v.overMaxWknd p))).sum
  else 0)

/-- `fair_expr`, the fairness objective: the sum of `penalty_terms_fair`. -/
def fairPenaltyExpr (cfg : ScheduleConfig) (peds : List ℕ) (v : ModelVars) : ℚ :=
  (peds.map (fun p => cfg.penaltyMonthlyBalance * (v.balDevPos p + v.balDevNeg p))).sum

/-- The lexicographic tolerance: `1e-6` (`LEXI_TOL` in `pediweb.py`, the
literal `1e-6` in `generate_schedule.py`). -/
def lexiTol : ℚ := 1 / 1000000

/-- Constraint set of the lexicographic second pass: after a first pass
achieving base value `bestBase`, the source adds `base_expr <= base_val + tol`
to the model and replaces the objective by `fair_expr`; a point is feasible
for the re-solve exactly when it satisfies the original constraints plus the
new bound. -/
def SecondPassFeasible (cfg : ScheduleConfig) (data : CombinedData)
    (prevOverlap : ℕ → Finset ℤ) (peds : List ℕ) (M : ℕ) (softPhase : Bool)
    (desired : ℕ → ℚ) (mandCur : ℕ → ℚ) (bestBase : ℚ) (v : ModelVars) : Prop :=
  Feasible cfg data prevOverlap peds M softPhase desired mandCur v ∧
  basePenaltyExpr cfg data peds softPhase v ≤ bestBase + lexiTol

/-- Python's `list(range(start, stop, -1))`: `start, start-1, ..., stop+1`. -/
def pyRangeNeg (start stop : ℤ) : List ℤ :=
  (List.range (start - stop).toNat).map (fun i : ℕ => start - (i : ℤ))

/-- `M_CANDIDATES = list(range(M_START, M_MIN - 1, -1))`: the separation
candidates from `M_START` down to `M_MIN`. -/
def mCandidates (mStart mMin : ℤ) : List ℤ := pyRangeNeg mStart (mMin - 1)

/-- The inner `for M_try in M_CANDIDATES` loop of one phase: build and solve
the model for each candidate in turn, stopping at the first feasible-optimal
result.  The external solver call is the oracle `solve`: `solve soft M` is
`some point` when the `(M, soft)` model solves to optimality, `none`
otherwise. -/
def phaseLoop {σ : Type} (solve : Bool → ℤ → Option σ) (soft : Bool) :
    List ℤ → Option (Bool × ℤ × σ)
  | [] => none
  | M :: rest =>
    match solve soft M with
    | some s => some (soft, M, s)
    | none => phaseLoop solve soft rest

/-- The outer `for soft_phase in [False, True]` loop with its
`if used_M is not None: break`: the hard phase over all candidates, then the
soft phase only if the hard phase found nothing. -/
def twoPhaseSolve {σ : Type} (solve : Bool → ℤ → Option σ) (cands : List ℤ) :
    Option (Bool × ℤ × σ) :=
  match phaseLoop solve false cands with
  | some r => some r
  | none => phaseLoop solve true cands

/-- The `(phase, M)` trials one phase actually runs: every candidate up to
and including the first success. -/
def phaseAttempts {σ : Type} (solve : Bool → ℤ → Option σ) (soft : Bool) :
    List ℤ → List (Bool × ℤ)
  | [] => []
  | M :: rest =>
    (soft, M) :: (if (solve soft M).isSome then [] else phaseAttempts solve soft rest)

/-- All `(phase, M)` trials the month loop actually runs. -/
def twoPhaseAttempts {σ : Type} (solve : Bool → ℤ → Option σ) (cands : List ℤ) :
    List (Bool × ℤ) :=
  phaseAttempts solve false cands ++
    (if (phaseLoop solve false cands).isSome then [] else phaseAttempts solve true cands)

/-- The full trial order: hard phase over all candidates, then soft phase. -/
def allTrials (cands : List ℤ) : List (Bool × ℤ) :=
  cands.map (fun M => (false, M)) ++ cands.map (fun M => (true, M))

/-- First success of a trial list in order. -/
def firstSuccess {σ : Type} (solve : Bool → ℤ → Option σ) :
    List (Bool × ℤ) → Option (Bool × ℤ × σ)
  | [] => none
  | t :: rest =>
    match solve t.1 t.2 with
    | some s => some (t.1, t.2, s)
    | none => firstSuccess solve rest

/-- The per-month diagnostic record assembled by `pediweb.py` when every
`(M, phase)` trial failed (`diagnostic_data_per_month[month_name]`). -/
structure DiagnosticRecord where
  status : String
  totalDays : ℕ
  totalRequiredShifts : ℚ
  totalMaxShifts : ℚ
  conflictsCount : ℕ
  conflictsList : List (ℕ × ℤ)
  lastMAttempted : ℤ

/-- The conflict scan of the diagnostics: for each worker, each date of
`mandatory_all | prev_overlap_mandatory` that is also in `cannot_all`
(Python iterates a hash set; the embedding lists each worker's conflict dates
in sorted order, the set of reported pairs being what matters). -/
def diagConflicts (data : CombinedData) (prevOverlap : ℕ → Finset ℤ)
    (peds : List ℕ) : List (ℕ × ℤ) :=
  peds.flatMap (fun p =>
    (((data.mandatoryAll p ∪ prevOverlap p).filter
        (fun d => d ∈ data.cannotAll p)).sort (· ≤ ·)).map (fun d => (p, d)))

/-- The infeasibility diagnostics of `pediweb.py`: a pure function of the
extracted constraint sets, the last solver status and the last `M` attempted —
no further solver call (and in particular no infeasibility certificate) is
involved. -/
def infeasibilityDiagnostics (data : CombinedData) (prevOverlap : ℕ → Finset ℤ)
    (peds : List ℕ) (status : String) (lastM : ℤ) (S1 S2 : ℚ) : DiagnosticRecord :=
  { status := status
    totalDays := data.daysAll.length
    totalRequiredShifts := (data.daysAll.length : ℚ) * S1
    totalMaxShifts := (data.daysAll.length : ℚ) * S2
    conflictsCount := (diagConflicts data prevOverlap peds).length
    conflictsList := diagConflicts data prevOverlap peds
    lastMAttempted := lastM }

/-- A concrete solver oracle: only the hard-phase model with M = 2 solves. -/
def exSolve : Bool → ℤ → Option Unit :=
  fun soft M => if soft = false ∧ M = 2 then some () else none

/-- The configuration values both variants default to. -/
def exCfg : ScheduleConfig :=
  { S1 := 0, S2 := 2, mStart := 3, mMin := 1, balanceAlpha := 1
    useLexicographicFairness := true
    penaltyPreferNotDay := 10, penaltyMissPreferredDay := 8
    penaltyExcessWeeklyShifts := 5, penaltyRepeatedWeekday := 30
    penaltyRepeatedPairing := 35, penaltyMonthlyBalance := 60
    penaltyShiftLimitViolation := 500, penaltyWeekendLimitViolation := 400 }

/-- A tiny concrete horizon (two weekday days, no overlap) used to exercise
the feasibility theorems on a concrete point. -/
def exData : CombinedData :=
  { monthDays := [0, 3], overlapDays := [], daysAll := [0, 3]
    startDate := 0, endDate := 3
    mandatoryAll := fun _ => ∅, cannotAll := fun _ => ∅
    preferNotAll := fun _ => ∅, preferredAll := fun _ => ∅
    shiftLimitsCur := fun _ => (0, 5), weekendLimitsCur := fun _ => (0, 5)
    shiftLimitsNext := none, weekendLimitsNext := none
    tipusStatus := fun _ => "Adjunt", mirStatus := fun _ => true
    noPreviousDayShifts := fun _ => ∅ }

/-- The all-zero model point: nobody assigned, all auxiliaries at zero. -/
def exVars : ModelVars :=
  { x := fun _ _ => false, weekViolations := fun _ _ => false
    missedPreferred := fun _ _ => false, pairViolations := fun _ _ => false
    workingTogether := fun _ _ _ => false
    balDevPos := fun _ => 0, balDevNeg := fun _ => 0
    underMin := fun _ => 0, overMax := fun _ => 0
    underMinWknd := fun _ => 0, overMaxWknd := fun _ => 0 }

lemma daysBeforeMonth_succ (y m : ℕ) (hm : 1 ≤ m) :
    daysBeforeMonth y (m + 1) = daysBeforeMonth y m + monthLength y m := by
  obtain ⟨k, rfl⟩ := Nat.exists_eq_add_of_le hm
  simp only [daysBeforeMonth, Nat.add_sub_cancel_left, Nat.succ_sub_one]
  rw [add_comm 1 k, Finset.sum_range_succ]

lemma monthStart_succ (y m : ℕ) (hm : 1 ≤ m) :
    monthStart y (m + 1) = monthStart y m + (monthLength y m : ℤ) := by
  simp only [monthStart, daysBeforeMonth_succ y m hm]
  push_cast
  ring

lemma mem_monthDays {y m : ℕ} {d : ℤ} :
    d ∈ monthDays y m ↔ monthStart y m ≤ d ∧ d < monthStart y m + (monthLength y m : ℤ) := by
  unfold monthDays
  rw [List.mem_map]
  constructor
  · rintro ⟨i, hi, rfl⟩
    rw [List.mem_range] at hi
    omega
  · rintro ⟨h1, h2⟩
    refine ⟨(d - monthStart y m).toNat, ?_, ?_⟩
    · rw [List.mem_range]; omega
    · omega

lemma monthDays_disjoint_succ {y m : ℕ} (hm : 1 ≤ m) {d : ℤ}
    (h1 : d ∈ monthDays y m) (h2 : d ∈ monthDays y (m + 1)) : False := by
  rw [mem_monthDays] at h1 h2
  rw [monthStart_succ y m hm] at h2
  omega

lemma separationPairs_mem (days : List ℤ) (M : ℕ) :
    ∀ pr ∈ separationPairs days M, pr.1 ∈ days ∧ pr.2 ∈ days := by
  intro pr hpr
  unfold separationPairs at hpr
  rw [List.mem_flatMap] at hpr
  obtain ⟨d, hd, hpr⟩ := hpr
  rw [List.mem_filterMap] at hpr
  obtain ⟨k, _, hsome⟩ := hpr
  split_ifs at hsome with hin
  cases hsome
  exact ⟨hd, hin⟩

lemma monthLength_pos (y m : ℕ) : 0 < monthLength y m := by
  unfold monthLength
  split_ifs <;> omega

lemma monthDays_ne_nil (y m : ℕ) : monthDays y m ≠ [] := by
  have h := monthLength_pos y m
  unfold monthDays
  simp only [ne_eq, List.map_eq_nil_iff, List.range_eq_nil]
  omega

lemma processMonth_days (year month : ℕ) (rawMandatory : ℕ → List ℤ)
    (sheets : ℕ → PedSheet) :
    (processMonth year month rawMandatory sheets).days = monthDays year month := rfl

lemma combine_monthDays (year month M : ℕ) (rawMandatory : ℕ → List ℤ)
    (sheets : ℕ → PedSheet) :
    (combineMonthWithOverlap year month M rawMandatory sheets).monthDays =
      monthDays year month := by
  unfold combineMonthWithOverlap
  split <;> rfl

/-- Every overlap-window day is a day of the following month. -/
lemma overlapDays_subset_next (year month M : ℕ) (rawMandatory : ℕ → List ℤ)
    (sheets : ℕ → PedSheet) {d : ℤ}
    (hd : d ∈ (combineMonthWithOverlap year month M rawMandatory sheets).overlapDays) :
    d ∈ monthDays year (month + 1) := by
  unfold combineMonthWithOverlap at hd
  by_cases h : month < 12 ∧ 0 < M
  · simp only [h, if_true] at hd
    exact List.take_subset _ _ hd
  · simp only [h, if_false] at hd
    simp at hd

/-- Claim C9: merging the next month's constraint sets into the horizon
changes nothing on the current month's own days — for every worker and every
day of the current month, membership in the merged mandatory, unavailable,
disliked and liked sets coincides with membership in the current month's own
sets. -/
theorem overlap_merge_preserves_month (year month M : ℕ) (hm : 1 ≤ month)
    (rawMandatory : ℕ → List ℤ) (sheets : ℕ → PedSheet) (p : ℕ) (d : ℤ)
    (hd : d ∈ (combineMonthWithOverlap year month M rawMandatory sheets).monthDays) :
    (d ∈ (combineMonthWithOverlap year month M rawMandatory sheets).mandatoryAll p ↔
      d ∈ (processMonth year month rawMandatory sheets).mandatoryShifts p) ∧
    (d ∈ (combineMonthWithOverlap year month M rawMandatory sheets).cannotAll p ↔
      d ∈ (processMonth year month rawMandatory sheets).cannotDoDays p) ∧
    (d ∈ (combineMonthWithOverlap year month M rawMandatory sheets).preferNotAll p ↔
      d ∈ (processMonth year month rawMandatory sheets).preferNotDays p) ∧
    (d ∈ (combineMonthWithOverlap year month M rawMandatory sheets).preferredAll p ↔
      d ∈ (processMonth year month rawMandatory sheets).preferredDays p) := by
  have hdm : d ∈ monthDays year month := by
    rwa [combine_monthDays] at hd
  have hnot : d ∉ monthDays year (month + 1) :=
    fun hmem => monthDays_disjoint_succ hm hdm hmem
  have hnotTake : ∀ l : List ℤ, l = (processMonth year (month + 1) rawMandatory sheets).days.take M →
      d ∉ l := by
    intro l hl hmem
    rw [hl] at hmem
    exact hnot (List.take_subset _ _ hmem)
  unfold combineMonthWithOverlap
  by_cases h : month < 12 ∧ 0 < M
  · simp only [h, if_true]
    have hdin : d ∉ (processMonth year (month + 1) rawMandatory sheets).days.take M :=
      hnotTake _ rfl
    refine ⟨?_, ?_, ?_, ?_⟩ <;>
      simp [Finset.mem_union, Finset.mem_filter, List.mem_toFinset, List.mem_filter, hdin] <;>
      split_ifs <;>
      simp [Finset.mem_union, Finset.mem_filter, List.mem_toFinset, List.mem_filter, hdin]
  · simp only [h, if_false]
    refine ⟨?_, ?_, ?_, ?_⟩ <;> simp [List.mem_toFinset]

/-- Witness for C9 at July 2026, M = 3, empty raw inputs, at day 2026-07-15. -/
theorem overlap_merge_preserves_month_witness :
    (1 ≤ 7) ∧
    toEpochDay 2026 7 15 ∈
      (combineMonthWithOverlap 2026 7 3 (fun _ => []) (fun _ => emptySheet)).monthDays ∧
    ((toEpochDay 2026 7 15 ∈
        (combineMonthWithOverlap 2026 7 3 (fun _ => []) (fun _ => emptySheet)).mandatoryAll 1 ↔
      toEpochDay 2026 7 15 ∈
        (processMonth 2026 7 (fun _ => []) (fun _ => emptySheet)).mandatoryShifts 1) ∧
    (toEpochDay 2026 7 15 ∈
        (combineMonthWithOverlap 2026 7 3 (fun _ => []) (fun _ => emptySheet)).cannotAll 1 ↔
      toEpochDay 2026 7 15 ∈
        (processMonth 2026 7 (fun _ => []) (fun _ => emptySheet)).cannotDoDays 1) ∧
    (toEpochDay 2026 7 15 ∈
        (combineMonthWithOverlap 2026 7 3 (fun _ => []) (fun _ => emptySheet)).preferNotAll 1 ↔
      toEpochDay 2026 7 15 ∈
        (processMonth 2026 7 (fun _ => []) (fun _ => emptySheet)).preferNotDays 1) ∧
    (toEpochDay 2026 7 15 ∈
        (combineMonthWithOverlap 2026 7 3 (fun _ => []) (fun _ => emptySheet)).preferredAll 1 ↔
      toEpochDay 2026 7 15 ∈
        (processMonth 2026 7 (fun _ => []) (fun _ => emptySheet)).preferredDays 1)) :=
  ⟨by norm_num, by decide,
    overlap_merge_preserves_month 2026 7 3 (by norm_num) (fun _ => []) (fun _ => emptySheet)
      1 (toEpochDay 2026 7 15) (by decide)⟩

/-- Claim C10: for December the horizon builder returns an empty overlap
window regardless of the requested overlap length `M`; the solved horizon is
December's own days only, so every separation constraint relates two December
days (none reaches into January); and the overlap carry recorded from an
accepted December solve is empty for every worker in both variants, so the
January solve starts with an empty mandatory carry. -/
theorem december_overlap_empty (year M : ℕ) (rawMandatory : ℕ → List ℤ)
    (sheets : ℕ → PedSheet) :
    (combineMonthWithOverlap year 12 M rawMandatory sheets).overlapDays = [] ∧
    (combineMonthWithOverlap year 12 M rawMandatory sheets).daysAll = monthDays year 12 ∧
    (∀ pr ∈ separationPairs
        ((combineMonthWithOverlap year 12 M rawMandatory sheets).daysAll) M,
      pr.1 ∈ monthDays year 12 ∧ pr.2 ∈ monthDays year 12) ∧
    (∀ (xv : ℕ → ℤ → Bool) (prev : ℕ → Finset ℤ) (p : ℕ),
      nextPrevOverlapPediweb
        (some (combineMonthWithOverlap year 12 M rawMandatory sheets, xv)) prev p = ∅) ∧
    (∀ (xv : ℕ → ℤ → Bool) (prev : ℕ → Finset ℤ) (p : ℕ),
      nextPrevOverlapGenerate
        (some (combineMonthWithOverlap year 12 M rawMandatory sheets, xv)) prev p = ∅) := by
  have h12 : ¬(12 < 12 ∧ 0 < M) := by omega
  have hov : (combineMonthWithOverlap year 12 M rawMandatory sheets).overlapDays = [] := by
    unfold combineMonthWithOverlap
    simp [h12]
  have hda : (combineMonthWithOverlap year 12 M rawMandatory sheets).daysAll =
      monthDays year 12 := by
    unfold combineMonthWithOverlap
    simp [h12, processMonth_days]
  refine ⟨hov, hda, ?_, ?_, ?_⟩
  · rw [hda]
    exact separationPairs_mem _ _
  · intro xv prev p
    simp [nextPrevOverlapPediweb, hov]
  · intro xv prev p
    simp [nextPrevOverlapGenerate, hov]

/-- Counterexample to C1 as stated: a mandatory shift on a vacation day is
kept (conflict resolution only drops mandatory entries coinciding with an
explicit Skip day), so 2026-07-10 is simultaneously in worker 1's mandatory
set and in their unavailable set. -/
theorem mandatory_meets_unavailable_on_vacation :
    toEpochDay 2026 7 10 ∈
      (processMonth 2026 7 (fun _ => [toEpochDay 2026 7 10])
        (fun _ => vacationSheet)).mandatoryShifts 1 ∧
    toEpochDay 2026 7 10 ∈
      (processMonth 2026 7 (fun _ => [toEpochDay 2026 7 10])
        (fun _ => vacationSheet)).cannotDoDays 1 := by
  decide

/-- Claim C1, amended: after constraint extraction and conflict resolution,
every surviving mandatory date of a worker lies in the target month and is
disjoint from that worker's explicit Skip set (an explicit skip wins over a
conflicting mandatory entry); unavailability coming from vacation or congress
leave does not remove a mandatory entry. -/
theorem mandatory_disjoint_from_skip (year month : ℕ) (rawMandatory : ℕ → List ℤ)
    (sheets : ℕ → PedSheet) (p : ℕ) (d : ℤ)
    (hd : d ∈ (processMonth year month rawMandatory sheets).mandatoryShifts p) :
    d ∈ monthDays year month ∧ d ∉ (sheets p).skip := by
  simp only [processMonth, List.mem_filter, decide_eq_true_eq] at hd
  exact ⟨hd.1.2, hd.2⟩

/-- Witness for the amended C1: a mandatory entry on 2026-07-11 survives next
to a skip on 2026-07-10 and is not itself a skip day. -/
theorem mandatory_disjoint_from_skip_witness :
    toEpochDay 2026 7 11 ∈
      (processMonth 2026 7 (fun _ => [toEpochDay 2026 7 10, toEpochDay 2026 7 11])
        (fun _ => skipSheet)).mandatoryShifts 1 ∧
    (toEpochDay 2026 7 11 ∈ monthDays 2026 7 ∧
      toEpochDay 2026 7 11 ∉ ((fun _ : ℕ => skipSheet) 1).skip) :=
  ⟨by decide,
    mandatory_disjoint_from_skip 2026 7
      (fun _ => [toEpochDay 2026 7 10, toEpochDay 2026 7 11])
      (fun _ => skipSheet) 1 (toEpochDay 2026 7 11) (by decide)⟩

/-- Counterexample to C2 as stated: in `generate_schedule.py` the overlap
carry after a totally infeasible month is the previous month's carry, not the
empty set — at a concrete non-empty carry the update on failure returns it
unchanged. -/
theorem infeasible_carry_kept_generate :
    nextPrevOverlapGenerate none julyCarry 1 = {toEpochDay 2026 8 1} ∧
    nextPrevOverlapGenerate none julyCarry 1 ≠ (∅ : Finset ℤ) := by
  decide

/-- Claim C2, amended: on a totally infeasible month the run continues to the
next month in both variants; in `pediweb.py` the overlap carry passed on is
reset to the empty set for every worker, while in `generate_schedule.py` the
failure branch leaves the carry at its previous value. -/
theorem infeasible_carry_update (prev : ℕ → Finset ℤ) (p : ℕ) :
    nextPrevOverlapPediweb none prev p = (∅ : Finset ℤ) ∧
    nextPrevOverlapGenerate none prev = prev :=
  ⟨rfl, rfl⟩

/-- Witness for C10 at December 2026, M = 3: a concrete separation pair of
the December horizon, both endpoints inside December. -/
theorem december_overlap_empty_witness :
    (monthStart 2026 12, monthStart 2026 12 + 1) ∈ separationPairs
        ((combineMonthWithOverlap 2026 12 3 (fun _ => []) (fun _ => emptySheet)).daysAll) 3 ∧
    ((monthStart 2026 12, monthStart 2026 12 + 1).1 ∈ monthDays 2026 12 ∧
      (monthStart 2026 12, monthStart 2026 12 + 1).2 ∈ monthDays 2026 12) :=
  ⟨by decide,
    (december_overlap_empty 2026 3 (fun _ => []) (fun _ => emptySheet)).2.2.1 _ (by decide)⟩

lemma firstSuccess_append {σ : Type} (solve : Bool → ℤ → Option σ)
    (l1 l2 : List (Bool × ℤ)) :
    firstSuccess solve (l1 ++ l2) =
      match firstSuccess solve l1 with
      | some r => some r
      | none => firstSuccess solve l2 := by
  induction l1 with
  | nil => simp [firstSuccess]
  | cons t rest ih =>
    cases hsolve : solve t.1 t.2 <;> simp [firstSuccess, hsolve, ih]

lemma phaseLoop_eq_firstSuccess {σ : Type} (solve : Bool → ℤ → Option σ) (soft : Bool) :
    ∀ cands : List ℤ, phaseLoop solve soft cands =
      firstSuccess solve (cands.map (fun M => (soft, M))) := by
  intro cands
  induction cands with
  | nil => rfl
  | cons M rest ih =>
    cases hsolve : solve soft M <;> simp [phaseLoop, firstSuccess, hsolve, ih]

lemma twoPhaseSolve_eq_firstSuccess {σ : Type} (solve : Bool → ℤ → Option σ)
    (cands : List ℤ) :
    twoPhaseSolve solve cands = firstSuccess solve (allTrials cands) := by
  unfold twoPhaseSolve allTrials
  rw [firstSuccess_append, ← phaseLoop_eq_firstSuccess, ← phaseLoop_eq_firstSuccess]

lemma firstSuccess_eq_none_iff {σ : Type} (solve : Bool → ℤ → Option σ) :
    ∀ ts : List (Bool × ℤ),
      firstSuccess solve ts = none ↔ ∀ t ∈ ts, solve t.1 t.2 = none := by
  intro ts
  induction ts with
  | nil => simp [firstSuccess]
  | cons t rest ih =>
    cases hsolve : solve t.1 t.2 <;> simp [firstSuccess, hsolve, ih]

lemma firstSuccess_some_spec {σ : Type} (solve : Bool → ℤ → Option σ) :
    ∀ (ts : List (Bool × ℤ)) (s : Bool) (M : ℤ) (a : σ),
      firstSuccess solve ts = some (s, M, a) →
      solve s M = some a ∧
      (∀ t ∈ ts.takeWhile (fun t => (solve t.1 t.2).isNone), solve t.1 t.2 = none) ∧
      (ts.dropWhile (fun t => (solve t.1 t.2).isNone)).take 1 = [(s, M)] := by
  intro ts
  induction ts with
  | nil => intro s M a h; simp [firstSuccess] at h
  | cons t rest ih =>
    intro s M a h
    cases hsolve : solve t.1 t.2 with
    | none =>
      simp only [firstSuccess, hsolve] at h
      obtain ⟨hsv, htw, hdw⟩ := ih s M a h
      refine ⟨hsv, ?_, ?_⟩
      · intro t' ht'
        rw [List.takeWhile_cons] at ht'
        simp only [hsolve, Option.isNone_none, if_true] at ht'
        rcases List.mem_cons.mp ht' with h1 | h1
        · subst h1; exact hsolve
        · exact htw t' h1
      · rw [List.dropWhile_cons]
        simp only [hsolve, Option.isNone_none, if_true]
        exact hdw
    | some val =>
      simp only [firstSuccess, hsolve, Option.some.injEq, Prod.mk.injEq] at h
      obtain ⟨h1, h2, h3⟩ := h
      subst h1
      subst h2
      subst h3
      refine ⟨hsolve, ?_, ?_⟩
      · intro t' ht'
        rw [List.takeWhile_cons] at ht'
        simp only [hsolve, Option.isNone_some, if_false] at ht'
        simp at ht'
      · rw [List.dropWhile_cons]
        simp only [hsolve, Option.isNone_some, if_false]
        simp

lemma takeWhile_append_stop {α : Type} (p : α → Bool) {l1 : List α} (l2 : List α)
    (h : l1.dropWhile p ≠ []) :
    (l1 ++ l2).takeWhile p = l1.takeWhile p := by
  induction l1 with
  | nil => simp [List.dropWhile] at h
  | cons a l ih =>
    cases hpa : p a
    · simp [List.takeWhile_cons, hpa]
    · have h' : l.dropWhile p ≠ [] := by
        simpa [List.dropWhile_cons, hpa] using h
      simp [List.takeWhile_cons, hpa, ih h']

lemma dropWhile_append_stop {α : Type} (p : α → Bool) {l1 : List α} (l2 : List α)
    (h : l1.dropWhile p ≠ []) :
    (l1 ++ l2).dropWhile p = l1.dropWhile p ++ l2 := by
  induction l1 with
  | nil => simp [List.dropWhile] at h
  | cons a l ih =>
    cases hpa : p a
    · simp [List.dropWhile_cons, hpa]
    · have h' : l.dropWhile p ≠ [] := by
        simpa [List.dropWhile_cons, hpa] using h
      simp [List.dropWhile_cons, hpa, ih h']

lemma takeWhile_append_all {α : Type} (p : α → Bool) {l1 : List α} (l2 : List α)
    (h : ∀ x ∈ l1, p x = true) :
    (l1 ++ l2).takeWhile p = l1 ++ l2.takeWhile p := by
  induction l1 with
  | nil => simp
  | cons a l ih =>
    have hpa : p a = true := h a (List.mem_cons_self a l)
    simp only [List.cons_append, List.takeWhile_cons, hpa, if_true, List.cons.injEq,
      true_and]
    exact ih (fun x hx => h x (List.mem_cons_of_mem a hx))

lemma dropWhile_append_all {α : Type} (p : α → Bool) {l1 : List α} (l2 : List α)
    (h : ∀ x ∈ l1, p x = true) :
    (l1 ++ l2).dropWhile p = l2.dropWhile p := by
  induction l1 with
  | nil => simp
  | cons a l ih =>
    have hpa : p a = true := h a (List.mem_cons_self a l)
    simp only [List.cons_append, List.dropWhile_cons, hpa, if_true]
    exact ih (fun x hx => h x (List.mem_cons_of_mem a hx))

lemma take_one_append {α : Type} {l : List α} (l2 : List α) (h : l ≠ []) :
    (l ++ l2).take 1 = l.take 1 := by
  cases l with
  | nil => exact absurd rfl h
  | cons a rest => simp

lemma phaseAttempts_eq {σ : Type} (solve : Bool → ℤ → Option σ) (soft : Bool) :
    ∀ cands : List ℤ, phaseAttempts solve soft cands =
      ((cands.map (fun M => (soft, M))).takeWhile
        (fun t => (solve t.1 t.2).isNone)) ++
      ((cands.map (fun M => (soft, M))).dropWhile
        (fun t => (solve t.1 t.2).isNone)).take 1 := by
  intro cands
  induction cands with
  | nil => rfl
  | cons M rest ih =>
    cases hsolve : solve soft M with
    | none =>
      simp only [phaseAttempts, hsolve, Option.isNone_none, Option.isSome_none,
        List.map_cons, List.takeWhile_cons, List.dropWhile_cons]
      simp [ih]
    | some val =>
      simp only [phaseAttempts, hsolve, Option.isNone_some, Option.isSome_some,
        List.map_cons, List.takeWhile_cons, List.dropWhile_cons]
      simp

lemma phaseLoop_isSome_dropWhile {σ : Type} (solve : Bool → ℤ → Option σ)
    (soft : Bool) (cands : List ℤ)
    (h : (phaseLoop solve soft cands).isSome = true) :
    (cands.map (fun M => (soft, M))).dropWhile
      (fun t => (solve t.1 t.2).isNone) ≠ [] := by
  rw [phaseLoop_eq_firstSuccess] at h
  obtain ⟨⟨s, M, a⟩, hr⟩ := Option.isSome_iff_exists.mp h
  have hspec := firstSuccess_some_spec solve _ s M a hr
  intro hnil
  rw [hnil] at hspec
  simp at hspec

lemma phaseLoop_isNone_all {σ : Type} (solve : Bool → ℤ → Option σ)
    (soft : Bool) (cands : List ℤ)
    (h : ¬(phaseLoop solve soft cands).isSome = true) :
    ∀ t ∈ cands.map (fun M => (soft, M)),
      (fun t : Bool × ℤ => (solve t.1 t.2).isNone) t = true := by
  rw [phaseLoop_eq_firstSuccess] at h
  have hnone : firstSuccess solve (cands.map (fun M => (soft, M))) = none := by
    cases hfs : firstSuccess solve (cands.map (fun M => (soft, M))) with
    | none => rfl
    | some r => rw [hfs] at h; simp at h
  intro t ht
  have := (firstSuccess_eq_none_iff solve _).mp hnone t ht
  simpa [Option.isNone_iff_eq_none]

lemma twoPhaseAttempts_eq {σ : Type} (solve : Bool → ℤ → Option σ) (cands : List ℤ) :
    twoPhaseAttempts solve cands =
      (allTrials cands).takeWhile (fun t => (solve t.1 t.2).isNone) ++
      ((allTrials cands).dropWhile (fun t => (solve t.1 t.2).isNone)).take 1 := by
  unfold twoPhaseAttempts allTrials
  rw [phaseAttempts_eq, phaseAttempts_eq]
  by_cases h : (phaseLoop solve false cands).isSome = true
  · have hne := phaseLoop_isSome_dropWhile solve false cands h
    rw [takeWhile_append_stop _ _ hne, dropWhile_append_stop _ _ hne,
      take_one_append _ hne]
    simp [h]
  · have hall := phaseLoop_isNone_all solve false cands h
    have ht := takeWhile_append_all (fun t : Bool × ℤ => (solve t.1 t.2).isNone)
      (cands.map (fun M => (true, M))) hall
    have hd := dropWhile_append_all (fun t : Bool × ℤ => (solve t.1 t.2).isNone)
      (cands.map (fun M => (true, M))) hall
    rw [ht, hd]
    have ht1 : (cands.map (fun M => (false, M))).takeWhile
        (fun t : Bool × ℤ => (solve t.1 t.2).isNone) = cands.map (fun M => (false, M)) :=
      List.takeWhile_eq_self_iff.mpr hall
    have hd1 : (cands.map (fun M => (false, M))).dropWhile
        (fun t : Bool × ℤ => (solve t.1 t.2).isNone) = [] :=
      List.dropWhile_eq_nil_iff.mpr (fun x hx => hall x hx)
    rw [ht1, hd1]
    simp [h]

lemma pyRangeNeg_chain (start stop : ℤ) :
    List.Chain' (fun a b => b < a) (pyRangeNeg start stop) := by
  unfold pyRangeNeg
  rw [List.chain'_map]
  cases hn : (start - stop).toNat with
  | zero => simp
  | succ k =>
    rw [List.chain'_range_succ]
    intro m _
    omega

lemma mem_pyRangeNeg {start stop M : ℤ} :
    M ∈ pyRangeNeg start stop ↔ stop < M ∧ M ≤ start := by
  unfold pyRangeNeg
  rw [List.mem_map]
  constructor
  · rintro ⟨i, hi, rfl⟩
    rw [List.mem_range] at hi
    omega
  · rintro ⟨h1, h2⟩
    refine ⟨(start - M).toNat, ?_, ?_⟩
    · rw [List.mem_range]; omega
    · omega

/-- Claim C5: the two-phase driver tries candidates in strictly descending
order, the hard phase over every candidate before any soft trial; the trial
list covers exactly the integers from `M_START` down to `M_MIN`; the result is
the first feasible-optimal trial of that order; and when a trial succeeds,
every trial actually attempted before it failed and the attempt list ends at
the success — no later `(M, phase)` trial runs. -/
theorem two_phase_driver {σ : Type} (solve : Bool → ℤ → Option σ) (mStart mMin : ℤ) :
    List.Chain' (fun a b => b < a) (mCandidates mStart mMin) ∧
    (∀ M : ℤ, M ∈ mCandidates mStart mMin ↔ mMin ≤ M ∧ M ≤ mStart) ∧
    allTrials (mCandidates mStart mMin) =
      (mCandidates mStart mMin).map (fun M => (false, M)) ++
      (mCandidates mStart mMin).map (fun M => (true, M)) ∧
    twoPhaseSolve solve (mCandidates mStart mMin) =
      firstSuccess solve (allTrials (mCandidates mStart mMin)) ∧
    (∀ s M a, twoPhaseSolve solve (mCandidates mStart mMin) = some (s, M, a) →
      solve s M = some a ∧
      (∀ t ∈ (allTrials (mCandidates mStart mMin)).takeWhile
          (fun t => (solve t.1 t.2).isNone), solve t.1 t.2 = none) ∧
      twoPhaseAttempts solve (mCandidates mStart mMin) =
        (allTrials (mCandidates mStart mMin)).takeWhile
          (fun t => (solve t.1 t.2).isNone) ++ [(s, M)]) := by
  refine ⟨pyRangeNeg_chain _ _, ?_, rfl, twoPhaseSolve_eq_firstSuccess solve _, ?_⟩
  · intro M
    rw [mCandidates, mem_pyRangeNeg]
    omega
  · intro s M a h
    rw [twoPhaseSolve_eq_firstSuccess] at h
    obtain ⟨hsv, htw, hdw⟩ := firstSuccess_some_spec solve _ s M a h
    exact ⟨hsv, htw, by rw [twoPhaseAttempts_eq, hdw]⟩

/-- Witness for C5: with the oracle `exSolve` (only hard-phase M = 2 solves)
and candidates 3..1, the driver returns the hard M = 2 trial and the attempt
list is the two hard trials M = 3, M = 2. -/
theorem two_phase_driver_witness :
    twoPhaseSolve exSolve (mCandidates 3 1) = some (false, 2, ()) ∧
    (exSolve false 2 = some () ∧
      (∀ t ∈ (allTrials (mCandidates 3 1)).takeWhile
          (fun t => (exSolve t.1 t.2).isNone), exSolve t.1 t.2 = none) ∧
      twoPhaseAttempts exSolve (mCandidates 3 1) =
        (allTrials (mCandidates 3 1)).takeWhile
          (fun t => (exSolve t.1 t.2).isNone) ++ [(false, 2)]) :=
  ⟨by decide,
    (two_phase_driver exSolve 3 1).2.2.2.2 false 2 () (by decide)⟩

/-- Claim C3: when a month ends totally infeasible, the diagnostic record
contains exactly the pairs `(worker, date)` with the date simultaneously in
that worker's mandatory set (merged mandatory or carried overlap mandatory)
and in their unavailable set, together with the final solver status and the
last `M` attempted; the record is a pure function of those inputs, with no
solver infeasibility certificate involved. -/
theorem infeasibility_diagnostics_spec (data : CombinedData)
    (prevOverlap : ℕ → Finset ℤ) (peds : List ℕ) (status : String) (lastM : ℤ)
    (S1 S2 : ℚ) :
    (∀ (p : ℕ) (d : ℤ),
      (p, d) ∈ (infeasibilityDiagnostics data prevOverlap peds
          status lastM S1 S2).conflictsList ↔
        (p ∈ peds ∧ (d ∈ data.mandatoryAll p ∨ d ∈ prevOverlap p) ∧
          d ∈ data.cannotAll p)) ∧
    (infeasibilityDiagnostics data prevOverlap peds status lastM S1 S2).status =
      status ∧
    (infeasibilityDiagnostics data prevOverlap peds status lastM S1 S2).lastMAttempted =
      lastM ∧
    (infeasibilityDiagnostics data prevOverlap peds status lastM S1 S2).conflictsCount =
      (infeasibilityDiagnostics data prevOverlap peds
        status lastM S1 S2).conflictsList.length := by
  refine ⟨?_, rfl, rfl, rfl⟩
  intro p d
  simp only [infeasibilityDiagnostics, diagConflicts, List.mem_flatMap, List.mem_map,
    Finset.mem_sort, Finset.mem_filter, Finset.mem_union, Prod.mk.injEq]
  constructor
  · rintro ⟨q, hq, d', ⟨⟨hmem, hcan⟩, heq1, heq2⟩⟩
    subst heq1
    subst heq2
    exact ⟨hq, hmem, hcan⟩
  · rintro ⟨hp, hmd, hcan⟩
    exact ⟨p, hp, d, ⟨⟨hmd, hcan⟩, rfl, rfl⟩⟩

/-- Witness for C3 on the C1 conflict scenario: the July 2026 record reports
worker 1's mandatory-but-unavailable date 2026-07-10. -/
theorem infeasibility_diagnostics_spec_witness :
    (1, toEpochDay 2026 7 10) ∈ (infeasibilityDiagnostics
        (combineMonthWithOverlap 2026 7 3 (fun _ => [toEpochDay 2026 7 10])
          (fun _ => vacationSheet))
        (fun _ => ∅) [1] "Infeasible" 1 2 2).conflictsList ↔
      (1 ∈ [1] ∧
        (toEpochDay 2026 7 10 ∈ (combineMonthWithOverlap 2026 7 3
            (fun _ => [toEpochDay 2026 7 10]) (fun _ => vacationSheet)).mandatoryAll 1 ∨
          toEpochDay 2026 7 10 ∈ (fun _ : ℕ => (∅ : Finset ℤ)) 1) ∧
        toEpochDay 2026 7 10 ∈ (combineMonthWithOverlap 2026 7 3
            (fun _ => [toEpochDay 2026 7 10]) (fun _ => vacationSheet)).cannotAll 1) :=
  (infeasibility_diagnostics_spec
    (combineMonthWithOverlap 2026 7 3 (fun _ => [toEpochDay 2026 7 10])
      (fun _ => vacationSheet))
    (fun _ => ∅) [1] "Infeasible" 1 2 2).1 1 (toEpochDay 2026 7 10)

/-- The all-zero point is feasible for the tiny horizon under the default
configuration (hard phase, M = 3): shared concrete input of the feasibility
witnesses. -/
lemma exVars_feasible :
    Feasible exCfg exData (fun _ => ∅) [1, 2] 3 false (fun _ => 0) (fun _ => 0) exVars := by
  norm_num [Feasible, exData, exCfg, exVars, bval, monthTotal, weekDays, numWeeks,
    weekendDaysCur, pyWeekday, List.forall_mem_cons]

/-- Claim C6: in any accepted assignment, every day of the solved horizon has
at least `S1` and at most `S2` workers assigned — the model's staffing-band
constraints hold at any feasible point, and the accepted assignment is a
feasible point. -/
theorem staffing_band_holds (cfg : ScheduleConfig) (data : CombinedData)
    (prevOverlap : ℕ → Finset ℤ) (peds : List ℕ) (M : ℕ) (softPhase : Bool)
    (desired : ℕ → ℚ) (mandCur : ℕ → ℚ) (v : ModelVars)
    (h : Feasible cfg data prevOverlap peds M softPhase desired mandCur v) :
    ∀ d ∈ data.daysAll,
      cfg.S1 ≤ (peds.map (fun p => bval (v.x p d))).sum ∧
      (peds.map (fun p => bval (v.x p d))).sum ≤ cfg.S2 := by
  obtain ⟨_, _, _, _, _, _, _, _, _, _, _, _, _, _, _, hstaff, _⟩ := h
  exact hstaff

/-- Witness for C6 on the concrete feasible point, at day 0. -/
theorem staffing_band_holds_witness :
    Feasible exCfg exData (fun _ => ∅) [1, 2] 3 false (fun _ => 0) (fun _ => 0) exVars ∧
    (0 : ℤ) ∈ exData.daysAll ∧
    (exCfg.S1 ≤ ([1, 2].map (fun p => bval (exVars.x p 0))).sum ∧
      ([1, 2].map (fun p => bval (exVars.x p 0))).sum ≤ exCfg.S2) :=
  ⟨exVars_feasible, by decide,
    staffing_band_holds _ _ _ _ _ _ _ _ _ exVars_feasible 0 (by decide)⟩

/-- Claim C7: in any accepted assignment every worker is assigned on each
date of the merged mandatory set, assigned on each carried-over overlap
mandatory falling in the current month, and unassigned on each unavailable
date of the horizon. -/
theorem mandatory_unavailable_enforced (cfg : ScheduleConfig) (data : CombinedData)
    (prevOverlap : ℕ → Finset ℤ) (peds : List ℕ) (M : ℕ) (softPhase : Bool)
    (desired : ℕ → ℚ) (mandCur : ℕ → ℚ) (v : ModelVars)
    (h : Feasible cfg data prevOverlap peds M softPhase desired mandCur v) :
    (∀ p ∈ peds, ∀ d ∈ data.mandatoryAll p, v.x p d = true) ∧
    (∀ p ∈ peds, ∀ d ∈ prevOverlap p, d ∈ data.monthDays → v.x p d = true) ∧
    (∀ p ∈ peds, ∀ d ∈ data.daysAll, d ∈ data.cannotAll p → v.x p d = false) := by
  obtain ⟨_, _, _, _, _, hmand, hprev, hunav, _⟩ := h
  exact ⟨hmand, hprev, hunav⟩

/-- Witness for C7 on the concrete feasible point. -/
theorem mandatory_unavailable_enforced_witness :
    Feasible exCfg exData (fun _ => ∅) [1, 2] 3 false (fun _ => 0) (fun _ => 0) exVars ∧
    ((∀ p ∈ [1, 2], ∀ d ∈ exData.mandatoryAll p, exVars.x p d = true) ∧
      (∀ p ∈ [1, 2], ∀ d ∈ (fun _ : ℕ => (∅ : Finset ℤ)) p,
        d ∈ exData.monthDays → exVars.x p d = true) ∧
      (∀ p ∈ [1, 2], ∀ d ∈ exData.daysAll, d ∈ exData.cannotAll p → exVars.x p d = false)) :=
  ⟨exVars_feasible, mandatory_unavailable_enforced _ _ _ _ _ _ _ _ _ exVars_feasible⟩

/-- Claim C8: in any accepted assignment produced with separation distance
`M`, no worker works two days within `M` days of each other over the horizon. -/
theorem separation_enforced (cfg : ScheduleConfig) (data : CombinedData)
    (prevOverlap : ℕ → Finset ℤ) (peds : List ℕ) (M : ℕ) (softPhase : Bool)
    (desired : ℕ → ℚ) (mandCur : ℕ → ℚ) (v : ModelVars)
    (h : Feasible cfg data prevOverlap peds M softPhase desired mandCur v) :
    ∀ p ∈ peds, ∀ d ∈ data.daysAll, ∀ k : ℕ, 1 ≤ k → k ≤ M →
      (d + (k : ℤ)) ∈ data.daysAll →
      ¬(v.x p d = true ∧ v.x p (d + (k : ℤ)) = true) := by
  obtain ⟨_, _, _, _, _, _, _, _, _, _, _, _, _, _, hsep, _⟩ := h
  intro p hp d hd k hk1 hkM hmem hboth
  obtain ⟨hx1, hx2⟩ := hboth
  have hcast : ((k - 1 : ℕ) : ℤ) + 1 = (k : ℤ) := by omega
  have hk : k - 1 ∈ List.range M := by
    rw [List.mem_range]
    omega
  have hs := hsep p hp d hd (k - 1) hk
  rw [hcast] at hs
  have := hs hmem
  rw [hx1, hx2] at this
  norm_num [bval] at this

/-- Witness for C8 on the concrete feasible point: days 0 and 3 with k = 3. -/
theorem separation_enforced_witness :
    Feasible exCfg exData (fun _ => ∅) [1, 2] 3 false (fun _ => 0) (fun _ => 0) exVars ∧
    (0 : ℤ) ∈ exData.daysAll ∧ ((0 : ℤ) + ((3 : ℕ) : ℤ)) ∈ exData.daysAll ∧
    ¬(exVars.x 1 0 = true ∧ exVars.x 1 (0 + ((3 : ℕ) : ℤ)) = true) :=
  ⟨exVars_feasible, by decide, by decide,
    separation_enforced _ _ _ _ _ _ _ _ _ exVars_feasible 1 (by decide) 0 (by decide) 3
      (by norm_num) (by norm_num) (by decide)⟩

/-- Claim C4: the lexicographic second pass keeps the original constraints
and adds `base_expr <= best_base + tol` while the objective becomes
`fair_expr` only, so any assignment accepted from the re-solve is feasible for
the original model and its base-penalty value exceeds the first pass's optimal
base value by at most the tolerance. -/
theorem lexicographic_bound (cfg : ScheduleConfig) (data : CombinedData)
    (prevOverlap : ℕ → Finset ℤ) (peds : List ℕ) (M : ℕ) (softPhase : Bool)
    (desired : ℕ → ℚ) (mandCur : ℕ → ℚ) (v1 v2 : ModelVars)
    (h1 : Feasible cfg data prevOverlap peds M softPhase desired mandCur v1)
    (h2 : SecondPassFeasible cfg data prevOverlap peds M softPhase desired mandCur
      (basePenaltyExpr cfg data peds softPhase v1) v2) :
    Feasible cfg data prevOverlap peds M softPhase desired mandCur v2 ∧
    basePenaltyExpr cfg data peds softPhase v2 ≤
      basePenaltyExpr cfg data peds softPhase v1 + lexiTol :=
  ⟨h2.1, h2.2⟩

/-- Witness for C4 on the concrete feasible point (the re-solve may return
the first-pass point itself, which satisfies the added bound). -/
theorem lexicographic_bound_witness :
    Feasible exCfg exData (fun _ => ∅) [1, 2] 3 false (fun _ => 0) (fun _ => 0) exVars ∧
    SecondPassFeasible exCfg exData (fun _ => ∅) [1, 2] 3 false (fun _ => 0) (fun _ => 0)
      (basePenaltyExpr exCfg exData [1, 2] false exVars) exVars ∧
    (Feasible exCfg exData (fun _ => ∅) [1, 2] 3 false (fun _ => 0) (fun _ => 0) exVars ∧
      basePenaltyExpr exCfg exData [1, 2] false exVars ≤
        basePenaltyExpr exCfg exData [1, 2] false exVars + lexiTol) :=
  have hsp : SecondPassFeasible exCfg exData (fun _ => ∅) [1, 2] 3 false (fun _ => 0)
      (fun _ => 0) (basePenaltyExpr exCfg exData [1, 2] false exVars) exVars :=
    ⟨exVars_feasible, le_add_of_nonneg_right (by norm_num [lexiTol])⟩
  ⟨exVars_feasible, hsp,
    lexicographic_bound _ _ _ _ _ _ _ _ _ _ exVars_feasible hsp⟩

end Shifty
